import Mathlib

/-!
Shallow embedding of the photo-rotation core of the repository
(src/scheduler.py, src/models.py, src/google_photos.py), and proofs of the
specification's claims about it.

Modelling conventions:
* Photo identifiers (cache file paths) are an arbitrary type with decidable
  equality; concrete instances use String.
* The stored slideshow current_index is an Int (Python ints), and Python's
  modulo on possibly-negative operands is Int.emod, which has the same
  sign-of-divisor convention.
* random.choice on a non-empty list is modelled by an arbitrary index k,
  reduced modulo the list length so that every element is reachable.
* Python exceptions (in particular the UnboundLocalError raised when a local
  variable is read before assignment) are modelled with Except.error.
* File-system state (the settings JSON, the cache directory listing) is
  passed in and returned explicitly.
-/

/-- OrderMode: the slideshow order setting, "random" or "sequential"
    (src/scheduler.py get_next_photo_path's order argument). -/
inductive OrderMode where
  | random : OrderMode
  | sequential : OrderMode
deriving DecidableEq, Repr

/-- INTERVAL_OPTIONS from src/scheduler.py line 19: the whitelist of valid
    slideshow intervals in minutes. -/
def INTERVAL_OPTIONS : List Nat := [5, 15, 30, 60, 180, 360, 720, 1440]

section Scheduler

variable {α : Type} [DecidableEq α] [Inhabited α]

/-- Embedding of src/scheduler.py get_next_photo_path (lines 33-69).
    Arguments: the cached photo list, the stored slideshow.current_index,
    the order mode, and the random-choice seed k.  Returns the photo chosen
    (none when no photos are available) together with the current_index that
    the function stores back into the settings; Except.error models a raised
    Python exception.  In the random branch with a single photo, the local
    next_index is never assigned, so the update_settings call at line 66
    raises UnboundLocalError. -/
def get_next_photo_path (photos : List α) (current_index : Int)
    (order : OrderMode) (k : Nat) : Except String (Option α × Int) :=
  if photos.isEmpty then
    Except.ok (none, current_index)
  else
    match order with
    | OrderMode.random =>
        if photos.length = 1 then
          Except.error "UnboundLocalError: next_index referenced before assignment"
        else
          let available :=
            ((photos.enum.filter
              (fun ip => decide ((ip.fst : Int) ≠ current_index))).map Prod.snd)
          let next_photo :=
            if available.isEmpty then photos.getD 0 default
            else available.getD (k % available.length) default
          let next_index : Int := List.indexOf next_photo photos
          Except.ok (some next_photo, next_index)
    | OrderMode.sequential =>
        let next_index : Int := (current_index + 1) % (photos.length : Int)
        Except.ok (some (photos.getD next_index.toNat default), next_index)

/-- Embedding of src/scheduler.py get_previous_photo_path (lines 72-108).
    The random branch is identical to get_next_photo_path's (including the
    unassigned prev_index when only one photo exists); the sequential branch
    steps the index backwards modulo the length. -/
def get_previous_photo_path (photos : List α) (current_index : Int)
    (order : OrderMode) (k : Nat) : Except String (Option α × Int) :=
  if photos.isEmpty then
    Except.ok (none, current_index)
  else
    match order with
    | OrderMode.random =>
        if photos.length = 1 then
          Except.error "UnboundLocalError: prev_index referenced before assignment"
        else
          let available :=
            ((photos.enum.filter
              (fun ip => decide ((ip.fst : Int) ≠ current_index))).map Prod.snd)
          let prev_photo :=
            if available.isEmpty then photos.getD 0 default
            else available.getD (k % available.length) default
          let prev_index : Int := List.indexOf prev_photo photos
          Except.ok (some prev_photo, prev_index)
    | OrderMode.sequential =>
        let prev_index : Int := (current_index - 1) % (photos.length : Int)
        Except.ok (some (photos.getD prev_index.toNat default), prev_index)

/-- Embedding of src/scheduler.py show_next_photo (lines 111-128): displays
    the next photo and returns True, or returns False when
    get_next_photo_path yields None.  The Bool is the return value, the Int
    the stored current_index afterwards. -/
def show_next_photo (photos : List α) (current_index : Int)
    (order : OrderMode) (k : Nat) : Except String (Bool × Int) :=
  match get_next_photo_path photos current_index order k with
  | Except.ok (some _, c2) => Except.ok (true, c2)
  | Except.ok (none, c2) => Except.ok (false, c2)
  | Except.error e => Except.error e

/-- Embedding of src/scheduler.py start_slideshow (lines 180-217).  Result
    components: the interval (in minutes) of the recurring job installed
    (none when no job was installed), the boolean return value, and the
    stored current_index after the initial show_next_photo call.  The job is
    installed before show_next_photo runs, and the function returns True
    regardless of show_next_photo's result. -/
def start_slideshow (photos : List α) (enabled : Bool) (interval_minutes : Nat)
    (current_index : Int) (order : OrderMode) (k : Nat) :
    Except String (Option Nat × Bool × Int) :=
  if !enabled then
    Except.ok (none, false, current_index)
  else
    let effective :=
      if INTERVAL_OPTIONS.contains interval_minutes then interval_minutes else 60
    match show_next_photo photos current_index order k with
    | Except.ok (_, c2) => Except.ok (some effective, true, c2)
    | Except.error e => Except.error e

/-- Outputs and final stored index of n successive get_next_photo_path calls
    in sequential mode, starting from stored index c (the seed k is unused in
    the sequential branch). -/
def seqRun (photos : List α) (c : Int) : Nat → List α × Int
  | 0 => ([], c)
  | Nat.succ n =>
      let r := seqRun photos c n
      match get_next_photo_path photos r.snd OrderMode.sequential 0 with
      | Except.ok (some p, c2) => (r.fst ++ [p], c2)
      | Except.ok (none, c2) => (r.fst, c2)
      | Except.error _ => r

/-- Outputs and final stored index of successive get_next_photo_path calls in
    random mode, one per random-choice seed in ks, starting from stored
    index c. -/
def randRun (photos : List α) (c : Int) : List Nat → List α × Int
  | [] => ([], c)
  | k :: ks =>
      match get_next_photo_path photos c OrderMode.random k with
      | Except.ok (some p, c2) =>
          let r := randRun photos c2 ks
          (p :: r.fst, r.snd)
      | Except.ok (none, c2) => randRun photos c2 ks
      | Except.error _ => ([], c)

end Scheduler

/-- A JSON-ish settings value: either an opaque scalar (string, number,
    boolean as stored in settings.json) or a nested dict, modelled as an
    association list in insertion order, the way Python dicts iterate. -/
inductive SVal where
  | atom : String → SVal
  | obj : List (String × SVal) → SVal
deriving BEq

/-- Python dict lookup d[k] / d.get(k): first (unique) matching key. -/
def svLookup : List (String × SVal) → String → Option SVal
  | [], _ => none
  | (k2, v) :: rest, k => if k2 = k then some v else svLookup rest k

/-- Python dict assignment d[k] = v: replaces the value at an existing key in
    place, otherwise appends the new key at the end. -/
def svSet : List (String × SVal) → String → SVal → List (String × SVal)
  | [], k, v => [(k, v)]
  | (k2, v2) :: rest, k, v =>
      if k2 = k then (k, v) :: rest else (k2, v2) :: svSet rest k v

/-- Python dict.update(u): assigns each key of u into d, in order. -/
def dictUpdate : List (String × SVal) → List (String × SVal) →
    List (String × SVal)
  | d, [] => d
  | d, (k, v) :: rest => dictUpdate (svSet d k v) rest

/-- The body of the update_settings loop (src/models.py lines 123-127): if
    value is a dict and settings has a dict at key, merge with dict.update,
    otherwise overwrite the key. -/
def update_settings_step (settings : List (String × SVal)) (k : String)
    (v : SVal) : List (String × SVal) :=
  match v, svLookup settings k with
  | SVal.obj uo, some (SVal.obj so) => svSet settings k (SVal.obj (dictUpdate so uo))
  | _, _ => svSet settings k v

/-- Embedding of src/models.py update_settings (lines 120-129), as the pure
    transformation from the loaded settings dict to the saved one: the loop
    body update_settings_step is applied for each (key, value) of updates in
    order. -/
def update_settings : List (String × SVal) → List (String × SVal) →
    List (String × SVal)
  | settings, [] => settings
  | settings, (k, v) :: rest =>
      update_settings (update_settings_step settings k v) rest

/-- One entry of the photo cache directory, carrying the pathlib.Path
    attributes src/google_photos.py get_cached_photos reads: the file name,
    the extension (Path.suffix, with its leading dot, case as on disk),
    whether the entry is a regular file, and the stat st_mtime (modelled as
    an integer timestamp; only its ordering matters). -/
structure DirEntry where
  name : String
  ext : String
  is_file : Bool
  mtime : Int
deriving DecidableEq, Repr

/-- The extension whitelist of src/google_photos.py line 388. -/
def photoExtensions : List String := [".jpg", ".jpeg", ".png", ".gif", ".webp"]

/-- Python str.lower(), character by character (the extensions compared
    against are ASCII). -/
def strToLower (s : String) : String := String.mk (s.data.map Char.toLower)

/-- Embedding of src/google_photos.py get_cached_photos (lines 383-397):
    keep the regular files whose lowercased extension is whitelisted,
    excluding info_screen.png, and sort by st_mtime with reverse=True
    (Python's sorted is stable; List.insertionSort with the reversed
    non-strict comparison is the same stable descending sort). -/
def get_cached_photos (entries : List DirEntry) : List DirEntry :=
  let photos := entries.filter
    (fun f => f.is_file && photoExtensions.contains (strToLower f.ext) &&
      decide (f.name ≠ "info_screen.png"))
  List.insertionSort (fun a b => b.mtime ≤ a.mtime) photos

section SchedulerTheorems

variable {α : Type} [DecidableEq α] [Inhabited α]

/-- Helper: the sequential branch of get_next_photo_path steps the stored
    index forward by one, modulo the length. -/
theorem get_next_seq_eq (photos : List α) (c : Int) (k : Nat) (h : photos ≠ []) :
    get_next_photo_path photos c OrderMode.sequential k =
      Except.ok (some (photos.getD ((c + 1) % (photos.length : Int)).toNat default),
        (c + 1) % (photos.length : Int)) := by
  have he : photos.isEmpty = false := by
    rw [← Bool.not_eq_true, List.isEmpty_iff]
    exact h
  simp [get_next_photo_path, he]

/-- Helper: the sequential branch of get_previous_photo_path steps the stored
    index backward by one, modulo the length. -/
theorem get_prev_seq_eq (photos : List α) (c : Int) (k : Nat) (h : photos ≠ []) :
    get_previous_photo_path photos c OrderMode.sequential k =
      Except.ok (some (photos.getD ((c - 1) % (photos.length : Int)).toNat default),
        (c - 1) % (photos.length : Int)) := by
  have he : photos.isEmpty = false := by
    rw [← Bool.not_eq_true, List.isEmpty_iff]
    exact h
  simp [get_previous_photo_path, he]

/-- C1 counterexample: with candidates [a,b,c] and the stored index at its
    initial default 0, the first advance() in Sequential mode returns b (the
    code computes next index (0+1) mod 3 = 1), not the first element a; six
    successive advances yield b,c,a,b,c,a rather than a,b,c,a,b,c. -/
theorem c1_sequential_first_advance_counterexample :
    (seqRun ["a", "b", "c"] 0 1).fst = ["b"] ∧
    (seqRun ["a", "b", "c"] 0 6).fst = ["b", "c", "a", "b", "c", "a"] ∧
    (["b", "c", "a", "b", "c", "a"] : List String) ≠ ["a", "b", "c", "a", "b", "c"] :=
  ⟨rfl, rfl, by decide⟩

/-- C1 amended: in Sequential mode with candidates [a,b,c] and the stored
    index at its initial default 0, successive advance() calls yield
    b, c, a, b, c, a, … — the n-th advance returns the element at index
    n mod 3, and the stored index after n advances is n mod 3. -/
theorem c1_sequential_wrap_amended (n : Nat) :
    seqRun ["a", "b", "c"] (0 : Int) n =
      ((List.range n).map (fun i => ["a", "b", "c"].getD ((i + 1) % 3) ""),
        (n : Int) % 3) := by
  induction n with
  | zero => rfl
  | succ m ih =>
      have hlist : ((["a", "b", "c"] : List String).length : Int) = 3 := rfl
      have hstep := get_next_seq_eq (["a", "b", "c"] : List String)
        ((m : Int) % 3) 0 (by decide)
      rw [hlist] at hstep
      have hidx : ((m : Int) % 3 + 1) % 3 = ((m + 1 : Nat) : Int) % 3 := by
        push_cast
        omega
      have htn : (((m : Int) % 3 + 1) % 3).toNat = (m + 1) % 3 := by
        omega
      show (let r := seqRun ["a", "b", "c"] (0 : Int) m;
        match get_next_photo_path ["a", "b", "c"] r.snd OrderMode.sequential 0 with
        | Except.ok (some p, c2) => (r.fst ++ [p], c2)
        | Except.ok (none, c2) => (r.fst, c2)
        | Except.error _ => r) = _
      rw [ih]
      simp only [hstep, htn, hidx]
      rw [List.range_succ, List.map_append]
      simp only [List.map_cons, List.map_nil, List.getD_eq_getElem?_getD]
      have hidx2 : (((m + 1 : Nat) : Int) % 3).toNat = (m + 1) % 3 := by
        omega
      rw [hidx2]
      rfl

/-- C3 counterexample: in Random mode, advance() immediately followed by
    retreat() need not restore the previous current selection.  With
    candidates [a,b,c] and current index 0 (selection a), an advance can
    choose b (stored index 1), and the following retreat can choose c — not
    the prior selection a, which is still a valid candidate. -/
theorem c3_random_undo_counterexample :
    get_next_photo_path ["a", "b", "c"] 0 OrderMode.random 0 = Except.ok (some "b", 1) ∧
    get_previous_photo_path ["a", "b", "c"] 1 OrderMode.random 1 = Except.ok (some "c", 2) ∧
    ("c" : String) ≠ "a" :=
  ⟨rfl, rfl, by decide⟩

/-- C3 amended: the undo property holds in Sequential mode only: for a valid
    stored index c, advance() stores (c+1) mod n, and the retreat() that
    follows returns the photo at index c — the selection in effect before the
    advance — and stores c back.  (In Random mode retreat() picks another
    random photo and need not restore the prior selection.) -/
theorem c3_sequential_undo_amended (photos : List α) (c c1 : Int) (p : α) (k k2 : Nat)
    (hc0 : 0 ≤ c) (hcn : c < (photos.length : Int))
    (h : get_next_photo_path photos c OrderMode.sequential k = Except.ok (some p, c1)) :
    get_previous_photo_path photos c1 OrderMode.sequential k2 =
      Except.ok (some (photos.getD c.toNat default), c) := by
  have hne : photos ≠ [] := by
    intro hh
    subst hh
    simp only [List.length_nil, Nat.cast_zero] at hcn
    omega
  rw [get_next_seq_eq photos c k hne] at h
  have hc1 : c1 = (c + 1) % (photos.length : Int) := by
    have := Except.ok.inj h
    exact (Prod.mk.injEq _ _ _ _).mp this |>.2.symm
  have key : ((c + 1) % (photos.length : Int) - 1) % (photos.length : Int) = c := by
    rw [Int.sub_emod ((c + 1) % (photos.length : Int)) 1 (photos.length : Int),
      Int.emod_emod_of_dvd _ dvd_rfl, ← Int.sub_emod, add_sub_cancel_right]
    exact Int.emod_eq_of_lt hc0 hcn
  rw [get_prev_seq_eq photos c1 k2 hne, hc1, key]

/-- C3 amended witness: on [a,b,c] with current index 0, advance stores
    index 1 and returns b; the retreat that follows returns a (index 0). -/
theorem c3_sequential_undo_amended_witness :
    get_previous_photo_path ["a", "b", "c"] 1 OrderMode.sequential 0 =
      Except.ok (some (["a", "b", "c"].getD ((0 : Int).toNat) ""), 0) :=
  c3_sequential_undo_amended ["a", "b", "c"] 0 1 "b" 0 0 (by decide) (by decide) rfl

/-- C4: with a single-photo library, the Sequential branches of advance and
    retreat do return the single photo, but the Random branches raise
    UnboundLocalError: in the len(photos) == 1 branch the locals
    next_index/prev_index are never assigned, and the update_settings call
    that follows reads them. -/
theorem c4_single_photo_random_raises :
    get_next_photo_path ["a"] 0 OrderMode.random 0 =
      Except.error "UnboundLocalError: next_index referenced before assignment" ∧
    get_previous_photo_path ["a"] 0 OrderMode.random 0 =
      Except.error "UnboundLocalError: prev_index referenced before assignment" ∧
    get_next_photo_path ["a"] 0 OrderMode.sequential 0 = Except.ok (some "a", 0) ∧
    get_previous_photo_path ["a"] 0 OrderMode.sequential 0 = Except.ok (some "a", 0) :=
  ⟨rfl, rfl, rfl, rfl⟩

/-- C5 counterexample: start_slideshow does not check the photo count.  With
    zero photos and the slideshow enabled, it still installs the recurring
    job (interval 60) and returns true — not false with no job installed. -/
theorem c5_start_zero_photos_counterexample :
    start_slideshow ([] : List String) true 60 0 OrderMode.random 0 =
      Except.ok (some 60, true, 0) ∧
    (some (60 : Nat) ≠ none) ∧ (true ≠ false) :=
  ⟨rfl, by decide, by decide⟩

/-- C5 amended: with zero photos, advance and retreat return None and leave
    the stored index unchanged, and show_next_photo returns false; but
    start_slideshow ignores the photo count — when the slideshow is enabled
    it installs the recurring job (with the coerced interval) and returns
    true even with zero photos. -/
theorem c5_zero_photos_amended (c : Int) (order : OrderMode) (k iv : Nat) :
    get_next_photo_path ([] : List α) c order k = Except.ok (none, c) ∧
    get_previous_photo_path ([] : List α) c order k = Except.ok (none, c) ∧
    show_next_photo ([] : List α) c order k = Except.ok (false, c) ∧
    start_slideshow ([] : List α) true iv c order k =
      Except.ok (some (if INTERVAL_OPTIONS.contains iv then iv else 60), true, c) :=
  ⟨rfl, rfl, rfl, rfl⟩

/-- Helper: whenever start_slideshow succeeds with the slideshow enabled,
    the installed job's interval is the requested one if whitelisted, else
    60. -/
theorem start_job_interval (photos : List α) (c : Int) (order : OrderMode) (k iv : Nat)
    (r : Option Nat × Bool × Int)
    (h : start_slideshow photos true iv c order k = Except.ok r) :
    r.fst = some (if INTERVAL_OPTIONS.contains iv then iv else 60) := by
  cases hs : show_next_photo photos c order k with
  | ok v =>
      obtain ⟨b, c2⟩ := v
      simp only [start_slideshow, hs, Bool.not_true, Bool.false_eq_true, if_false] at h
      cases h
      rfl
  | error e =>
      simp only [start_slideshow, hs, Bool.not_true, Bool.false_eq_true, if_false] at h
      exact absurd h (by simp)

/-- C7: starting the slideshow with stored interval 37 (not in the
    whitelist) installs the recurring job with an effective interval of 60
    minutes; with the whitelisted value 180 the job uses 180 unchanged. -/
theorem c7_interval_coercion (photos : List α) (c : Int) (order : OrderMode) (k : Nat) :
    (∀ r, start_slideshow photos true 37 c order k = Except.ok r → r.fst = some 60) ∧
    (∀ r, start_slideshow photos true 180 c order k = Except.ok r → r.fst = some 180) := by
  constructor <;> intro r h
  · have hr := start_job_interval photos c order k 37 r h
    simpa using hr
  · have hr := start_job_interval photos c order k 180 r h
    simpa using hr

/-- C7 witness: on a one-photo library in sequential mode, start(37)
    installs the job with interval 60 and start(180) with interval 180. -/
theorem c7_interval_coercion_witness :
    ((some 60, true, (0 : Int)) : Option Nat × Bool × Int).fst = some 60 ∧
    ((some 180, true, (0 : Int)) : Option Nat × Bool × Int).fst = some 180 := by
  have h := c7_interval_coercion (α := String) ["a"] 0 OrderMode.sequential 0
  exact ⟨h.1 (some 60, true, 0) rfl, h.2 (some 180, true, 0) rfl⟩

/-- Helper: with at least two distinct photos, the random branch picks a
    photo stored at an index different from the current one: it filters the
    enumerated list to the positions other than current_index, chooses among
    them, and stores photos.index(choice) back. -/
theorem get_next_random_spec (photos : List α) (c : Int) (k : Nat)
    (h2 : 2 ≤ photos.length) (hnd : photos.Nodup) :
    ∃ j : Nat, j < photos.length ∧ (j : Int) ≠ c ∧
      get_next_photo_path photos c OrderMode.random k =
        Except.ok (some (photos.getD j default), (j : Int)) := by
  have hne : photos ≠ [] := by
    intro hh
    rw [hh] at h2
    simp at h2
  have hempty : photos.isEmpty = false := by
    rw [← Bool.not_eq_true, List.isEmpty_iff]
    exact hne
  have hlen1 : photos.length ≠ 1 := by omega
  set available :=
    ((photos.enum.filter (fun ip => decide ((ip.fst : Int) ≠ c))).map Prod.snd)
    with havdef
  have havne : available ≠ [] := by
    obtain ⟨i0, hi0lt, hi0ne⟩ : ∃ i0 : Nat, i0 < photos.length ∧ (i0 : Int) ≠ c := by
      by_cases hc : c = 0
      · exact ⟨1, by omega, by rw [hc]; decide⟩
      · exact ⟨0, by omega, by simpa using fun hh => hc hh.symm⟩
    have hmem : photos[i0] ∈ available := by
      rw [havdef]
      refine List.mem_map.mpr ⟨(i0, photos[i0]), List.mem_filter.mpr ⟨?_, ?_⟩, rfl⟩
      · exact List.mk_mem_enum_iff_getElem?.mpr (List.getElem?_eq_getElem hi0lt)
      · simpa using hi0ne
    exact List.ne_nil_of_mem hmem
  have havpos : 0 < available.length := List.length_pos.mpr havne
  have hkidx : k % available.length < available.length := Nat.mod_lt _ havpos
  have havempty : available.isEmpty = false := by
    rw [← Bool.not_eq_true, List.isEmpty_iff]
    exact havne
  set x := available.getD (k % available.length) default with hxdef
  have hx_get : x = available[k % available.length] := by
    rw [hxdef, List.getD_eq_getElem?_getD, List.getElem?_eq_getElem hkidx]
    rfl
  have hx_mem : x ∈ available := by
    rw [hx_get]
    exact List.getElem_mem hkidx
  obtain ⟨ip, hip_filter, hip_snd⟩ := List.mem_map.mp (havdef ▸ hx_mem)
  obtain ⟨hip_enum, hip_pred⟩ := List.mem_filter.mp hip_filter
  obtain ⟨i, y⟩ := ip
  have hiy : photos[i]? = some y := by
    exact List.mk_mem_enum_iff_getElem?.mp hip_enum
  obtain ⟨hi_lt, hi_eq⟩ := List.getElem?_eq_some.mp hiy
  have hic : (i : Int) ≠ c := by
    simpa using hip_pred
  have hyx : y = x := hip_snd
  have hx_photos : x ∈ photos := by
    rw [← hyx, ← hi_eq]
    exact List.getElem_mem hi_lt
  have hj_lt : List.indexOf x photos < photos.length := List.indexOf_lt_length.mpr hx_photos
  have hj_eq : photos[List.indexOf x photos] = x := List.getElem_indexOf hj_lt
  have hji : List.indexOf x photos = i := by
    have hinj := List.nodup_iff_injective_getElem.mp hnd
    have heq : photos[List.indexOf x photos] = photos[i] := by
      rw [hj_eq, ← hyx, hi_eq]
    have hfin : (⟨List.indexOf x photos, hj_lt⟩ : Fin photos.length) = ⟨i, hi_lt⟩ :=
      hinj (by simpa using heq)
    exact Fin.mk.inj_iff.mp hfin
  refine ⟨List.indexOf x photos, hj_lt, by rw [hji]; exact hic, ?_⟩
  have hgd : photos.getD (List.indexOf x photos) default = x := by
    rw [List.getD_eq_getElem?_getD, List.getElem?_eq_getElem hj_lt, Option.getD_some, hj_eq]
  simp only [get_next_photo_path, hempty, Bool.false_eq_true, if_false, hlen1,
    ← havdef, havempty, if_neg, hgd]

/-- Helper: for at least two photos (length not 1) the random branch of
    get_previous_photo_path is the same computation as the random branch of
    get_next_photo_path (the source bodies are line-for-line identical). -/
theorem get_prev_random_eq_next (photos : List α) (c : Int) (k : Nat)
    (h : photos.length ≠ 1) :
    get_previous_photo_path photos c OrderMode.random k =
      get_next_photo_path photos c OrderMode.random k := by
  by_cases he : photos.isEmpty
  · simp [get_next_photo_path, get_previous_photo_path, he]
  · have he2 : photos.isEmpty = false := by simpa using he
    simp [get_next_photo_path, get_previous_photo_path, he2, h]

/-- Helper: in a duplicate-free list, entries at distinct valid indices are
    distinct. -/
theorem getD_ne_of_ne (photos : List α) (hnd : photos.Nodup) {j : Nat} {c : Int}
    (hj : j < photos.length) (hc0 : 0 ≤ c) (hcn : c < (photos.length : Int))
    (hne : (j : Int) ≠ c) :
    photos.getD j default ≠ photos.getD c.toNat default := by
  have hcnat : c.toNat < photos.length := by omega
  intro heq
  apply hne
  rw [List.getD_eq_getElem?_getD, List.getElem?_eq_getElem hj,
    List.getD_eq_getElem?_getD, List.getElem?_eq_getElem hcnat] at heq
  simp only [Option.getD_some] at heq
  have hinj := List.nodup_iff_injective_getElem.mp hnd
  have hfin : (⟨j, hj⟩ : Fin photos.length) = ⟨c.toNat, hcnat⟩ :=
    hinj (by simpa using heq)
  have hjc : j = c.toNat := Fin.mk.inj_iff.mp hfin
  omega

/-- C10: in Random mode, for every duplicate-free cached-photo list of
    length at least 2 and every in-range stored current_index, both the
    next-photo and the previous-photo selection return a photo stored at an
    index different from current_index, and that photo differs from the
    current photo — an immediate repeat is impossible on every step. -/
theorem c10_random_no_immediate_repeat (photos : List α) (c : Int) (k k2 : Nat)
    (h2 : 2 ≤ photos.length) (hnd : photos.Nodup) (hc0 : 0 ≤ c)
    (hcn : c < (photos.length : Int)) :
    ∃ j j2 : Nat,
      get_next_photo_path photos c OrderMode.random k =
        Except.ok (some (photos.getD j default), (j : Int)) ∧
      (j : Int) ≠ c ∧ photos.getD j default ≠ photos.getD c.toNat default ∧
      get_previous_photo_path photos c OrderMode.random k2 =
        Except.ok (some (photos.getD j2 default), (j2 : Int)) ∧
      (j2 : Int) ≠ c ∧ photos.getD j2 default ≠ photos.getD c.toNat default := by
  obtain ⟨j, hj_lt, hj_ne, hj_eq⟩ := get_next_random_spec photos c k h2 hnd
  obtain ⟨j2, hj2_lt, hj2_ne, hj2_eq⟩ := get_next_random_spec photos c k2 h2 hnd
  refine ⟨j, j2, hj_eq, hj_ne, getD_ne_of_ne photos hnd hj_lt hc0 hcn hj_ne, ?_, hj2_ne,
    getD_ne_of_ne photos hnd hj2_lt hc0 hcn hj2_ne⟩
  rw [get_prev_random_eq_next photos c k2 (by omega)]
  exact hj2_eq

/-- C10 witness: on the two-photo library [a,b] with stored index 0, both
    selections return b at index 1, never a again. -/
theorem c10_random_no_immediate_repeat_witness :
    ∃ j j2 : Nat,
      get_next_photo_path ["a", "b"] 0 OrderMode.random 0 =
        Except.ok (some (["a", "b"].getD j default), (j : Int)) ∧
      (j : Int) ≠ 0 ∧ ["a", "b"].getD j default ≠ ["a", "b"].getD (0 : Int).toNat default ∧
      get_previous_photo_path ["a", "b"] 0 OrderMode.random 0 =
        Except.ok (some (["a", "b"].getD j2 default), (j2 : Int)) ∧
      (j2 : Int) ≠ 0 ∧ ["a", "b"].getD j2 default ≠ ["a", "b"].getD (0 : Int).toNat default :=
  c10_random_no_immediate_repeat ["a", "b"] 0 0 0 (by decide) (by decide) (by decide)
    (by decide)

/-- C2 counterexample: Random mode has no shuffle bag.  On the N = 3 library
    [a,b,c] starting at stored index 0, the run of 3 advance() calls with
    random choices picking the first available photo each time yields
    b, a, b: photo b is visited twice before photo c is visited at all,
    violating the exhaustion guarantee. -/
theorem c2_bag_exhaustion_counterexample :
    (randRun ["a", "b", "c"] 0 [0, 0, 0]).fst = ["b", "a", "b"] ∧
    (["b", "a", "b"].count "b") = 2 ∧ (["b", "a", "b"].count "c") = 0 :=
  ⟨rfl, by decide, by decide⟩

/-- C2 amended: Random mode guarantees only that each advance() differs from
    the photo it replaces: for every duplicate-free photo list of length at
    least 2, every in-range starting index, and every sequence of random
    choices, the run of advance() results never shows the same photo twice
    in a row (the current photo's index is excluded from each draw) — but
    there is no exhaustion guarantee, and a photo may repeat before all are
    visited. -/
theorem c2_random_no_consecutive_repeat_amended (photos : List α) (c : Int)
    (ks : List Nat) (h2 : 2 ≤ photos.length) (hnd : photos.Nodup) (hc0 : 0 ≤ c)
    (hcn : c < (photos.length : Int)) :
    List.Chain' (fun a b => a ≠ b)
      (photos.getD c.toNat default :: (randRun photos c ks).fst) := by
  induction ks generalizing c with
  | nil => simp [randRun]
  | cons k ks ih =>
      obtain ⟨j, hj_lt, hj_ne, hj_eq⟩ := get_next_random_spec photos c k h2 hnd
      have hne := getD_ne_of_ne photos hnd hj_lt hc0 hcn hj_ne
      simp only [randRun, hj_eq]
      rw [List.chain'_cons]
      constructor
      · exact Ne.symm hne
      · have hih := ih (c := (j : Int)) (by omega) (by exact_mod_cast hj_lt)
        simpa using hih

/-- C2 amended witness: a concrete run on [a,b,c] from index 0 with three
    draws never shows the same photo twice in a row. -/
theorem c2_random_no_consecutive_repeat_amended_witness :
    List.Chain' (fun a b => a ≠ b)
      (["a", "b", "c"].getD (0 : Int).toNat default ::
        (randRun ["a", "b", "c"] 0 [0, 1, 0]).fst) :=
  c2_random_no_consecutive_repeat_amended ["a", "b", "c"] 0 [0, 1, 0] (by decide)
    (by decide) (by decide) (by decide)

end SchedulerTheorems

/-- C6 counterexample: get_cached_photos sorts by st_mtime with
    reverse=True, newest first.  For a cache directory holding a.jpg
    (mtime 1) and b.jpg (mtime 2) it returns [b.jpg, a.jpg], which is not
    ascending (oldest first) as the claim states. -/
theorem c6_cached_photos_order_counterexample :
    get_cached_photos
        [⟨"a.jpg", ".jpg", true, 1⟩, ⟨"b.jpg", ".jpg", true, 2⟩] =
      [⟨"b.jpg", ".jpg", true, 2⟩, ⟨"a.jpg", ".jpg", true, 1⟩] ∧
    ¬ List.Sorted (fun a b : DirEntry => a.mtime ≤ b.mtime)
        (get_cached_photos
          [⟨"a.jpg", ".jpg", true, 1⟩, ⟨"b.jpg", ".jpg", true, 2⟩]) := by
  refine ⟨by decide, ?_⟩
  intro h
  rw [show get_cached_photos
      [⟨"a.jpg", ".jpg", true, 1⟩, ⟨"b.jpg", ".jpg", true, 2⟩] =
      [⟨"b.jpg", ".jpg", true, 2⟩, ⟨"a.jpg", ".jpg", true, 1⟩] from by decide] at h
  rw [List.sorted_cons] at h
  have h21 := h.1 ⟨"a.jpg", ".jpg", true, 1⟩ (by decide)
  exact absurd h21 (by decide)

/-- C6 amended: the cached-photos list is sorted descending by file
    modification time — newest photo first — for every cache directory
    listing. -/
theorem c6_cached_photos_sorted_descending_amended (entries : List DirEntry) :
    List.Sorted (fun a b : DirEntry => b.mtime ≤ a.mtime)
      (get_cached_photos entries) := by
  haveI : IsTotal DirEntry (fun a b => b.mtime ≤ a.mtime) :=
    ⟨fun a b => le_total b.mtime a.mtime⟩
  haveI : IsTrans DirEntry (fun a b => b.mtime ≤ a.mtime) :=
    ⟨fun _ _ _ hab hbc => le_trans hbc hab⟩
  exact List.sorted_insertionSort _ _

theorem svLookup_svSet_self (d : List (String × SVal)) (k : String) (v : SVal) :
    svLookup (svSet d k v) k = some v := by
  induction d with
  | nil => simp [svSet, svLookup]
  | cons kv rest ih =>
      obtain ⟨k2, v2⟩ := kv
      by_cases h : k2 = k
      · subst h
        simp [svSet, svLookup]
      · simp [svSet, svLookup, h, ih]

theorem svLookup_svSet_ne (d : List (String × SVal)) (k k2 : String) (v : SVal)
    (h : k ≠ k2) :
    svLookup (svSet d k v) k2 = svLookup d k2 := by
  induction d with
  | nil => simp [svSet, svLookup, h]
  | cons kv rest ih =>
      obtain ⟨k3, v3⟩ := kv
      by_cases h3 : k3 = k
      · subst h3
        simp [svSet, svLookup, h]
      · simp [svSet, svLookup, h3, ih]

theorem svLookup_eq_none_forall (u : List (String × SVal)) (k : String)
    (h : svLookup u k = none) : ∀ kv ∈ u, kv.fst ≠ k := by
  induction u with
  | nil => simp
  | cons kv rest ih =>
      obtain ⟨k2, v2⟩ := kv
      rw [svLookup] at h
      by_cases h2 : k2 = k
      · simp [h2] at h
      · intro kv2 hm
        rcases List.mem_cons.mp hm with he | hm2
        · rw [he]
          exact h2
        · exact ih (by simpa [h2] using h) kv2 hm2

theorem dictUpdate_lookup_not_mem (u : List (String × SVal)) (j : String)
    (h : ∀ kv ∈ u, kv.fst ≠ j) :
    ∀ d : List (String × SVal), svLookup (dictUpdate d u) j = svLookup d j := by
  induction u with
  | nil =>
      intro d
      rfl
  | cons kv rest ih =>
      intro d
      obtain ⟨k, v⟩ := kv
      rw [dictUpdate]
      rw [ih (fun kv2 hm => h kv2 (List.mem_cons_of_mem _ hm)) (svSet d k v)]
      exact svLookup_svSet_ne d k j v (h (k, v) (List.mem_cons_self _ _))

/-- Helper: one iteration step of models.update_settings assigns at key k0
    only, so lookups at other keys are unchanged. -/
theorem update_step_lookup_ne (s : List (String × SVal)) (k0 k : String)
    (v0 : SVal) (h : k0 ≠ k) :
    svLookup (update_settings_step s k0 v0) k = svLookup s k := by
  cases v0 with
  | atom a => exact svLookup_svSet_ne s k0 k _ h
  | obj uo =>
      cases hsl : svLookup s k0 with
      | none =>
          simp only [update_settings_step, hsl]
          exact svLookup_svSet_ne s k0 k _ h
      | some sv =>
          cases sv with
          | atom a =>
              simp only [update_settings_step, hsl]
              exact svLookup_svSet_ne s k0 k _ h
          | obj so =>
              simp only [update_settings_step, hsl]
              exact svLookup_svSet_ne s k0 k _ h

theorem update_settings_lookup_not_mem (u : List (String × SVal)) (k : String)
    (h : ∀ kv ∈ u, kv.fst ≠ k) :
    ∀ s : List (String × SVal), svLookup (update_settings s u) k = svLookup s k := by
  induction u with
  | nil =>
      intro s
      rfl
  | cons kv rest ih =>
      intro s
      obtain ⟨k0, v0⟩ := kv
      have hk0 : k0 ≠ k := h (k0, v0) (List.mem_cons_self _ _)
      have hrest : ∀ kv2 ∈ rest, kv2.fst ≠ k :=
        fun kv2 hm => h kv2 (List.mem_cons_of_mem _ hm)
      rw [update_settings]
      rw [ih hrest]
      exact update_step_lookup_ne s k0 k v0 hk0

/-- Helper: when updates holds a dict at key k (its keys duplicate-free, the
    way a Python dict is) and settings holds a dict there too, the merged
    settings hold the dict.update of the two at k. -/
theorem update_settings_obj_merge (u : List (String × SVal)) :
    ∀ s : List (String × SVal), (u.map Prod.fst).Nodup →
    ∀ (k : String) (uo so : List (String × SVal)),
    svLookup u k = some (SVal.obj uo) → svLookup s k = some (SVal.obj so) →
    svLookup (update_settings s u) k = some (SVal.obj (dictUpdate so uo)) := by
  induction u with
  | nil =>
      intro s _ k uo so hu_k _
      simp [svLookup] at hu_k
  | cons kv rest ih =>
      intro s hnd k uo so hu_k hs_k
      obtain ⟨k0, v0⟩ := kv
      rw [List.map_cons, List.nodup_cons] at hnd
      rw [svLookup] at hu_k
      by_cases h0 : k0 = k
      · rw [if_pos h0] at hu_k
        have hv0 : v0 = SVal.obj uo := Option.some.inj hu_k
        subst hv0
        subst h0
        rw [update_settings]
        have hstep : update_settings_step s k0 (SVal.obj uo) =
            svSet s k0 (SVal.obj (dictUpdate so uo)) := by
          simp only [update_settings_step, hs_k]
        rw [hstep]
        have hrest : ∀ kv2 ∈ rest, kv2.fst ≠ k0 := by
          intro kv2 hm heq
          have hmem : kv2.fst ∈ List.map Prod.fst rest :=
            List.mem_map_of_mem Prod.fst hm
          rw [heq] at hmem
          exact hnd.1 hmem
        rw [update_settings_lookup_not_mem rest k0 hrest _]
        exact svLookup_svSet_self s k0 _
      · rw [if_neg h0] at hu_k
        rw [update_settings]
        have hs2 : svLookup (update_settings_step s k0 v0) k = some (SVal.obj so) := by
          rw [update_step_lookup_ne s k0 k v0 h0]
          exact hs_k
        exact ih _ hnd.2 k uo so hu_k hs2

/-- C9: models.update_settings merges only at the named top-level keys:
    every top-level key not named in the partial update keeps its previous
    value, and within a named key whose old and new values are both dicts,
    sub-keys not present in the partial keep their previous values.  The
    partial update's keys are duplicate-free, as any Python dict's are. -/
theorem c9_update_settings_merge (s u : List (String × SVal))
    (hu : (u.map Prod.fst).Nodup) :
    (∀ k, svLookup u k = none →
      svLookup (update_settings s u) k = svLookup s k) ∧
    (∀ (k : String) (uo so : List (String × SVal)),
      svLookup u k = some (SVal.obj uo) → svLookup s k = some (SVal.obj so) →
      ∃ m, svLookup (update_settings s u) k = some (SVal.obj m) ∧
        ∀ j, svLookup uo j = none → svLookup m j = svLookup so j) := by
  constructor
  · intro k hk
    exact update_settings_lookup_not_mem u k (svLookup_eq_none_forall u k hk) s
  · intro k uo so hu_k hs_k
    refine ⟨dictUpdate so uo, update_settings_obj_merge u s hu k uo so hu_k hs_k, ?_⟩
    intro j hj
    exact dictUpdate_lookup_not_mem uo j (svLookup_eq_none_forall uo j hj) so

/-- C9 witness: updating the slideshow.current_index sub-key leaves the
    untouched top-level key display and the untouched sub-key
    slideshow.order at their previous values. -/
theorem c9_update_settings_merge_witness :
    ∃ m,
      svLookup
        (update_settings
          [("slideshow", SVal.obj
              [("order", SVal.atom "random"), ("current_index", SVal.atom "0")]),
           ("display", SVal.obj [("fit_mode", SVal.atom "contain")])]
          [("slideshow", SVal.obj [("current_index", SVal.atom "2")])])
        "slideshow" = some (SVal.obj m) ∧
      svLookup m "order" =
        svLookup [("order", SVal.atom "random"), ("current_index", SVal.atom "0")]
          "order" ∧
      svLookup
        (update_settings
          [("slideshow", SVal.obj
              [("order", SVal.atom "random"), ("current_index", SVal.atom "0")]),
           ("display", SVal.obj [("fit_mode", SVal.atom "contain")])]
          [("slideshow", SVal.obj [("current_index", SVal.atom "2")])])
        "display" =
        svLookup
          [("slideshow", SVal.obj
              [("order", SVal.atom "random"), ("current_index", SVal.atom "0")]),
           ("display", SVal.obj [("fit_mode", SVal.atom "contain")])]
          "display" := by
  have h := c9_update_settings_merge
    [("slideshow", SVal.obj
        [("order", SVal.atom "random"), ("current_index", SVal.atom "0")]),
     ("display", SVal.obj [("fit_mode", SVal.atom "contain")])]
    [("slideshow", SVal.obj [("current_index", SVal.atom "2")])]
    (by decide)
  obtain ⟨m, hm, hsub⟩ := h.2 "slideshow" [("current_index", SVal.atom "2")]
    [("order", SVal.atom "random"), ("current_index", SVal.atom "0")] rfl rfl
  exact ⟨m, hm, hsub "order" rfl, h.1 "display" rfl⟩
